import Mathlib

/-!
# Verification of the binance price-monitor core

A shallow embedding of `src/binance.py`: the windowed maximum-tracking
storage (`LocalSymbolStorage`), the per-symbol monitor (`SymbolMonitor`),
and the dispatcher built by `init_monitors`.

Modelling conventions:
* Python `float` prices and `datetime`/`timedelta` values are embedded as `ℚ`
  (time measured in seconds; `datetime.timedelta(hours=1)` becomes `3600`).
* The Python `dict` `_price_history` is embedded as an association list with
  unique keys; insertion overwrites an existing key in place and otherwise
  appends at the end, matching CPython dict semantics.
* Code that can raise is embedded with `Except` / `Option`: `dict.pop` /
  `max()` on an empty sequence (`ValueError`), `dict[missing]` (`KeyError`),
  and float division by zero (`ZeroDivisionError`) all become error values.
* The `while True` eviction loop in `store` is given fuel
  `len(history) + 1`, which dominates its iteration count because every
  iteration removes one entry from the history.
-/

set_option autoImplicit false

namespace Binance

/-- Embeds the `PriceAtTime` dataclass: a price together with the time it
was observed. -/
structure PriceAtTime where
  price : ℚ
  datetime : ℚ
deriving Repr, DecidableEq

/-- The `_price_history` dict of `LocalSymbolStorage`, as an association
list keyed by price. -/
abbrev History := List (ℚ × PriceAtTime)

/-- `dict.get(key)`: the value stored under `key`, if present. -/
def lookupA : History → ℚ → Option PriceAtTime
  | [], _ => none
  | (k, v) :: rest, key => if k = key then some v else lookupA rest key

/-- `dict.pop(key)`: removes the entry stored under `key` (keys are unique,
so removing the first match removes the entry). -/
def eraseA : History → ℚ → History
  | [], _ => []
  | (k, v) :: rest, key => if k = key then rest else (k, v) :: eraseA rest key

/-- `dict[key] = v`: overwrite in place when the key exists, append
otherwise (CPython dict ordering). -/
def insertA : History → ℚ → PriceAtTime → History
  | [], key, v => [(key, v)]
  | (k, w) :: rest, key, v =>
      if k = key then (key, v) :: rest else (k, w) :: insertA rest key v

/-- `dict.keys()`. -/
def keysA (h : History) : List ℚ := h.map Prod.fst

/-- `max(dict.keys())`: `none` models the `ValueError` Python raises on an
empty sequence. -/
def maxOfKeys : History → Option ℚ
  | [] => none
  | (k, _) :: rest =>
      some (match maxOfKeys rest with
            | none => k
            | some m => max k m)

/-- Uniqueness of the keys of the association list (always true of a
Python dict). -/
def NodupKeys (h : History) : Prop := (keysA h).Nodup

/-- The ways `LocalSymbolStorage.store` can raise. -/
inductive StoreError where
  /-- Fuel ran out (never happens with fuel `len(history) + 1`). -/
  | fuelExhausted
  /-- `top` was `None`: `_max_key` absent from `_price_history`
  (`AttributeError` on `top.datetime`). -/
  | missingTop
  /-- `max()` applied to an empty `dict.keys()` (`ValueError`). -/
  | emptyHistory
deriving Repr, DecidableEq

/-- Embeds `LocalSymbolStorage`: the lifetime window, the price-history
dict and the cached maximum key. -/
structure LocalSymbolStorage where
  lifetime : ℚ
  price_history : History
  max_key : ℚ
deriving Repr, DecidableEq

/-- `LocalSymbolStorage.__init__`: install the sentinel entry
`{-1.0: PriceAtTime(-1, now)}` and cache `_max_key = -1.0`. -/
def mkLocalSymbolStorage (lifetime now : ℚ) : LocalSymbolStorage :=
  { lifetime := lifetime
    price_history := [(-1, ⟨-1, now⟩)]
    max_key := -1 }

/-- The `while True` eviction loop of `LocalSymbolStorage.store`: while the
entry under the cached maximum is older than `lifetime` relative to the
incoming observation time `t`, pop it and recompute the maximum by
scanning the remaining keys. -/
def evictLoop (L t : ℚ) : Nat → History → ℚ → Except StoreError (History × ℚ)
  | 0, _, _ => .error .fuelExhausted
  | fuel + 1, hist, maxKey =>
      match lookupA hist maxKey with
      | none => .error .missingTop
      | some top =>
          if t - top.datetime > L then
            let hist1 := eraseA hist maxKey
            match maxOfKeys hist1 with
            | none => .error .emptyHistory
            | some m => evictLoop L t fuel hist1 m
          else
            .ok (hist, maxKey)

/-- `LocalSymbolStorage.store(price: PriceAtTime)`: run the eviction loop,
then insert/overwrite the entry for `obs.price` and update `_max_key`. -/
def LocalSymbolStorage.store (s : LocalSymbolStorage) (obs : PriceAtTime) :
    Except StoreError LocalSymbolStorage :=
  match evictLoop s.lifetime obs.datetime (s.price_history.length + 1)
      s.price_history s.max_key with
  | .error e => .error e
  | .ok (hist1, mk1) =>
      .ok { s with
            price_history := insertA hist1 obs.price obs
            max_key := max obs.price mk1 }

/-- `LocalSymbolStorage.get_price()`: return `_max_key` with no expiry
check on read. -/
def LocalSymbolStorage.get_price (s : LocalSymbolStorage) : ℚ := s.max_key

/-- `DROP_RELATIVE = lambda old, new: (old - new) / new`. Python float
division raises `ZeroDivisionError` when `new == 0`, embedded as `none`. -/
def DROP_RELATIVE (old new : ℚ) : Option ℚ :=
  if new = 0 then none else some ((old - new) / new)

/-- Embeds `SymbolMonitor`. The pluggable comparison (`calc` in the
source; renamed because `calc` is reserved in Lean) returns `none` when it
raises. The alert sink is external, so an invocation of it is recorded as
a boolean "alert fired" flag instead of performing I/O. -/
structure SymbolMonitor where
  symbol : String
  threshold : ℚ
  calcFn : ℚ → ℚ → Option ℚ
  storage : LocalSymbolStorage

/-- The ways `SymbolMonitor.reg_price` can raise. -/
inductive RegError where
  /-- The comparison function raised (e.g. division by zero). -/
  | calcRaised
  /-- The storage raised while storing the new observation. -/
  | storeFailed (e : StoreError)
deriving Repr, DecidableEq

/-- `SymbolMonitor.__init__` with the default storage
`LocalSymbolStorage(timedelta(hours=1))`, i.e. lifetime `3600` seconds. -/
def mkSymbolMonitor (symbol : String) (threshold : ℚ)
    (calcFn : ℚ → ℚ → Option ℚ) (now : ℚ) : SymbolMonitor :=
  { symbol := symbol
    threshold := threshold
    calcFn := calcFn
    storage := mkLocalSymbolStorage 3600 now }

/-- `SymbolMonitor.reg_price(price)`: read the stored reference price,
compute `diff = calc(stored, price)`, alert iff `diff > threshold`, then
unconditionally store `PriceAtTime(price, now)`. Returns the alert flag
and the updated monitor. -/
def SymbolMonitor.reg_price (m : SymbolMonitor) (price now : ℚ) :
    Except RegError (Bool × SymbolMonitor) :=
  let stored := m.storage.get_price
  match m.calcFn stored price with
  | none => .error .calcRaised
  | some diff =>
      let fired := decide (diff > m.threshold)
      match m.storage.store ⟨price, now⟩ with
      | .error e => .error (.storeFailed e)
      | .ok st => .ok (fired, { m with storage := st })

/-- Feed a list of `(price, time)` ticks through `reg_price` in order,
collecting the alert flags. -/
def runPrices (m : SymbolMonitor) : List (ℚ × ℚ) →
    Except RegError (List Bool × SymbolMonitor)
  | [] => .ok ([], m)
  | (p, t) :: rest =>
      match m.reg_price p t with
      | .error e => .error e
      | .ok (fired, m1) =>
          match runPrices m1 rest with
          | .error e => .error e
          | .ok (flags, m2) => .ok (fired :: flags, m2)

/-- Python truthiness of a `SymbolMonitor` instance: the class defines
neither `__bool__` nor `__len__`, so every instance is truthy. -/
def monitorTruthy (_ : SymbolMonitor) : Bool := true

/-- The ways the dispatcher `handler` can raise. -/
inductive HandlerError where
  /-- `monitors[stream]` with an absent key (`KeyError`). -/
  | keyError (stream : String)
  /-- The designated error raised on line 163 of the source:
  `Exception("Monitor for stream ... not created")`. -/
  | monitorNotCreated (stream : String)
  /-- `reg_price` raised. -/
  | regFailed (e : RegError)

/-- Lookup in the dispatcher's monitor table (`monitors[stream]` succeeds
only when the key is present). -/
def lookupMonitor : List (String × SymbolMonitor) → String → Option SymbolMonitor
  | [], _ => none
  | (k, v) :: rest, key => if k = key then some v else lookupMonitor rest key

/-- Replace the monitor stored under `key` (the state update performed by
a successful `reg_price` on the monitor object held in the table). -/
def updateMonitor : List (String × SymbolMonitor) → String → SymbolMonitor →
    List (String × SymbolMonitor)
  | [], _, _ => []
  | (k, v) :: rest, key, m =>
      if k = key then (key, m) :: rest else (k, v) :: updateMonitor rest key m

/-- The monitor built by `init_monitors` for one config entry: comparison
`DROP_RELATIVE`, default storage. -/
def init_monitor (symbol : String) (threshold : ℚ) (now : ℚ) : SymbolMonitor :=
  mkSymbolMonitor symbol threshold DROP_RELATIVE now

/-- The `handler` closure returned by `init_monitors`: look the stream up
in the table (`monitors[stream]` raises `KeyError` when absent), run the
dead truthiness check, then forward the price to `reg_price`. -/
def handler (monitors : List (String × SymbolMonitor)) (stream : String)
    (p t : ℚ) : Except HandlerError (List (String × SymbolMonitor) × Bool) :=
  match lookupMonitor monitors stream with
  | none => .error (.keyError stream)
  | some monitor =>
      if monitorTruthy monitor = false then
        .error (.monitorNotCreated stream)
      else
        match monitor.reg_price p t with
        | .error e => .error (.regFailed e)
        | .ok (fired, m1) => .ok (updateMonitor monitors stream m1, fired)

/-! ## Association-list lemmas -/

theorem mem_keysA_cons {k k0 : ℚ} {v0 : PriceAtTime} {rest : History} :
    k ∈ keysA ((k0, v0) :: rest) ↔ k = k0 ∨ k ∈ keysA rest := by
  rw [keysA, List.map_cons, List.mem_cons]
  rfl

theorem nodupKeys_cons {k0 : ℚ} {v0 : PriceAtTime} {rest : History} :
    NodupKeys ((k0, v0) :: rest) ↔ k0 ∉ keysA rest ∧ NodupKeys rest := by
  rw [NodupKeys, keysA, List.map_cons, List.nodup_cons]
  rfl

theorem lookupA_mem_keysA {h : History} {k : ℚ} {v : PriceAtTime}
    (hl : lookupA h k = some v) : k ∈ keysA h := by
  induction h with
  | nil => simp [lookupA] at hl
  | cons p rest ih =>
      obtain ⟨k0, v0⟩ := p
      by_cases hk : k0 = k
      · exact mem_keysA_cons.mpr (Or.inl hk.symm)
      · rw [lookupA, if_neg hk] at hl
        exact mem_keysA_cons.mpr (Or.inr (ih hl))

theorem mem_keysA_lookupA {h : History} {k : ℚ}
    (hm : k ∈ keysA h) : ∃ v, lookupA h k = some v := by
  induction h with
  | nil => simp [keysA] at hm
  | cons p rest ih =>
      obtain ⟨k0, v0⟩ := p
      by_cases hk : k0 = k
      · exact ⟨v0, by rw [lookupA, if_pos hk]⟩
      · rcases mem_keysA_cons.mp hm with hm | hm
        · exact absurd hm.symm hk
        · obtain ⟨v, hv⟩ := ih hm
          exact ⟨v, by rw [lookupA, if_neg hk]; exact hv⟩

theorem lookupA_eraseA_ne {h : History} {k key : ℚ} (hk : k ≠ key) :
    lookupA (eraseA h key) k = lookupA h k := by
  induction h with
  | nil => rfl
  | cons p rest ih =>
      obtain ⟨k0, v0⟩ := p
      by_cases h0 : k0 = key
      · have hne : ¬ k0 = k := fun hh => hk (hh.symm.trans h0)
        rw [eraseA, if_pos h0, lookupA, if_neg hne]
      · rw [eraseA, if_neg h0, lookupA, lookupA, ih]

theorem keysA_eraseA_subset {h : History} {k key : ℚ}
    (hm : k ∈ keysA (eraseA h key)) : k ∈ keysA h := by
  induction h with
  | nil => simpa [eraseA] using hm
  | cons p rest ih =>
      obtain ⟨k0, v0⟩ := p
      by_cases h0 : k0 = key
      · rw [eraseA, if_pos h0] at hm
        exact mem_keysA_cons.mpr (Or.inr hm)
      · rw [eraseA, if_neg h0] at hm
        rcases mem_keysA_cons.mp hm with hm | hm
        · exact mem_keysA_cons.mpr (Or.inl hm)
        · exact mem_keysA_cons.mpr (Or.inr (ih hm))

theorem nodup_eraseA {h : History} {key : ℚ} (hnd : NodupKeys h) :
    NodupKeys (eraseA h key) := by
  induction h with
  | nil => simpa [eraseA] using hnd
  | cons p rest ih =>
      obtain ⟨k0, v0⟩ := p
      obtain ⟨h1, h2⟩ := nodupKeys_cons.mp hnd
      by_cases h0 : k0 = key
      · rw [eraseA, if_pos h0]; exact h2
      · rw [eraseA, if_neg h0]
        exact nodupKeys_cons.mpr ⟨fun hc => h1 (keysA_eraseA_subset hc), ih h2⟩

theorem not_mem_keysA_eraseA_self {h : History} {key : ℚ}
    (hnd : NodupKeys h) : key ∉ keysA (eraseA h key) := by
  induction h with
  | nil => simp [eraseA, keysA]
  | cons p rest ih =>
      obtain ⟨k0, v0⟩ := p
      obtain ⟨h1, h2⟩ := nodupKeys_cons.mp hnd
      by_cases h0 : k0 = key
      · rw [eraseA, if_pos h0]; exact h0 ▸ h1
      · rw [eraseA, if_neg h0]
        intro hc
        rcases mem_keysA_cons.mp hc with hc | hc
        · exact h0 hc.symm
        · exact ih h2 hc

theorem maxOfKeys_spec {h : History} {m : ℚ}
    (hm : maxOfKeys h = some m) :
    m ∈ keysA h ∧ ∀ k ∈ keysA h, k ≤ m := by
  induction h generalizing m with
  | nil => simp [maxOfKeys] at hm
  | cons p rest ih =>
      obtain ⟨k0, v0⟩ := p
      rw [maxOfKeys] at hm
      cases hr : maxOfKeys rest with
      | none =>
          rw [hr] at hm
          simp only [Option.some.injEq] at hm
          subst hm
          constructor
          · exact mem_keysA_cons.mpr (Or.inl rfl)
          · intro k hk
            rcases mem_keysA_cons.mp hk with hk | hk
            · exact le_of_eq hk
            · obtain ⟨v, hv⟩ := mem_keysA_lookupA hk
              cases rest with
              | nil => simp [lookupA] at hv
              | cons q t => simp [maxOfKeys] at hr
      | some mr =>
          rw [hr] at hm
          simp only [Option.some.injEq] at hm
          subst hm
          obtain ⟨hmem, hub⟩ := ih hr
          constructor
          · rcases max_choice k0 mr with hc | hc
            · rw [hc]; exact mem_keysA_cons.mpr (Or.inl rfl)
            · rw [hc]; exact mem_keysA_cons.mpr (Or.inr hmem)
          · intro k hk
            rcases mem_keysA_cons.mp hk with hk | hk
            · exact hk ▸ le_max_left _ _
            · exact le_trans (hub k hk) (le_max_right _ _)

theorem maxOfKeys_ne_nil {h : History} (hne : h ≠ []) :
    ∃ m, maxOfKeys h = some m := by
  cases h with
  | nil => exact absurd rfl hne
  | cons p rest => exact ⟨_, rfl⟩

theorem lookupA_insertA_self {h : History} {key : ℚ} {v : PriceAtTime} :
    lookupA (insertA h key v) key = some v := by
  induction h with
  | nil => simp [insertA, lookupA]
  | cons p rest ih =>
      obtain ⟨k0, v0⟩ := p
      by_cases h0 : k0 = key
      · rw [insertA, if_pos h0, lookupA, if_pos rfl]
      · rw [insertA, if_neg h0, lookupA, if_neg h0]; exact ih

theorem lookupA_insertA_ne {h : History} {k key : ℚ} {v : PriceAtTime}
    (hk : k ≠ key) : lookupA (insertA h key v) k = lookupA h k := by
  have hne : ¬ key = k := fun hh => hk hh.symm
  induction h with
  | nil => simp [insertA, lookupA, hne]
  | cons p rest ih =>
      obtain ⟨k0, v0⟩ := p
      by_cases h0 : k0 = key
      · have h0k : ¬ k0 = k := fun hh => hk (hh.symm.trans h0)
        rw [insertA, if_pos h0, lookupA, if_neg hne, lookupA, if_neg h0k]
      · rw [insertA, if_neg h0, lookupA, lookupA, ih]

theorem mem_keysA_insertA {h : History} {k key : ℚ} {v : PriceAtTime} :
    k ∈ keysA (insertA h key v) ↔ k = key ∨ k ∈ keysA h := by
  induction h with
  | nil =>
      rw [insertA]
      constructor
      · intro hm
        rcases mem_keysA_cons.mp hm with hm | hm
        · exact Or.inl hm
        · simp [keysA] at hm
      · rintro (hm | hm)
        · exact mem_keysA_cons.mpr (Or.inl hm)
        · simp [keysA] at hm
  | cons p rest ih =>
      obtain ⟨k0, v0⟩ := p
      by_cases h0 : k0 = key
      · rw [insertA, if_pos h0]
        rw [mem_keysA_cons, mem_keysA_cons, h0]
        tauto
      · rw [insertA, if_neg h0]
        rw [mem_keysA_cons, mem_keysA_cons, ih]
        tauto

theorem insertA_ne_nil {h : History} {key : ℚ} {v : PriceAtTime} :
    insertA h key v ≠ [] := by
  cases h with
  | nil => simp [insertA]
  | cons p rest =>
      obtain ⟨k0, v0⟩ := p
      by_cases h0 : k0 = key
      · rw [insertA, if_pos h0]; simp
      · rw [insertA, if_neg h0]; simp

theorem nodup_insertA {h : History} {key : ℚ} {v : PriceAtTime}
    (hnd : NodupKeys h) : NodupKeys (insertA h key v) := by
  induction h with
  | nil =>
      rw [insertA]
      exact nodupKeys_cons.mpr ⟨by simp [keysA], by simp [NodupKeys, keysA]⟩
  | cons p rest ih =>
      obtain ⟨k0, v0⟩ := p
      obtain ⟨h1, h2⟩ := nodupKeys_cons.mp hnd
      by_cases h0 : k0 = key
      · rw [insertA, if_pos h0]
        exact nodupKeys_cons.mpr ⟨h0 ▸ h1, h2⟩
      · rw [insertA, if_neg h0]
        refine nodupKeys_cons.mpr ⟨?_, ih h2⟩
        intro hc
        rcases mem_keysA_insertA.mp hc with hc | hc
        · exact h0 hc
        · exact h1 hc

theorem maxOfKeys_insertA {h : History} {m key : ℚ} {v : PriceAtTime}
    (hm : maxOfKeys h = some m) :
    maxOfKeys (insertA h key v) = some (max key m) := by
  induction h generalizing m with
  | nil => simp [maxOfKeys] at hm
  | cons p rest ih =>
      obtain ⟨k0, v0⟩ := p
      rw [maxOfKeys] at hm
      by_cases h0 : k0 = key
      · subst h0
        rw [insertA, if_pos rfl, maxOfKeys]
        cases hr : maxOfKeys rest with
        | none =>
            rw [hr] at hm
            simp only [Option.some.injEq] at hm
            subst hm
            simp
        | some mr =>
            rw [hr] at hm
            simp only [Option.some.injEq] at hm
            subst hm
            rw [← max_assoc, max_self]
      · rw [insertA, if_neg h0, maxOfKeys]
        cases hr : maxOfKeys rest with
        | none =>
            have hrestnil : rest = [] := by
              cases rest with
              | nil => rfl
              | cons q t => simp [maxOfKeys] at hr
            subst hrestnil
            rw [hr] at hm
            simp only [Option.some.injEq] at hm
            subst hm
            rw [insertA, maxOfKeys, maxOfKeys, max_comm]
        | some mr =>
            rw [hr] at hm
            simp only [Option.some.injEq] at hm
            subst hm
            rw [ih hr]
            rw [max_left_comm]

/-! ## The eviction loop -/

/--
What a successful run of the eviction loop guarantees, starting from a
history with unique keys whose cached maximum is correct:
the surviving history has unique keys, its cached maximum is again the
largest key, every entry at a key `≤` the new maximum survives untouched,
every surviving key existed before and is `≤` the new maximum, and the
entry under the new maximum is fresh (within `L` of the incoming time). -/
theorem evictLoop_ok_spec {L t : ℚ} :
    ∀ (fuel : Nat) (hist : History) (mk : ℚ) (hist1 : History) (mk1 : ℚ),
      NodupKeys hist → maxOfKeys hist = some mk →
      evictLoop L t fuel hist mk = .ok (hist1, mk1) →
      NodupKeys hist1 ∧
      maxOfKeys hist1 = some mk1 ∧
      (∀ k e, lookupA hist k = some e → k ≤ mk1 → lookupA hist1 k = some e) ∧
      (∀ k, k ∈ keysA hist1 → k ∈ keysA hist ∧ k ≤ mk1) ∧
      (∃ top, lookupA hist1 mk1 = some top ∧ t - top.datetime ≤ L) := by
  intro fuel
  induction fuel with
  | zero =>
      intro hist mk hist1 mk1 _ _ hrun
      simp [evictLoop] at hrun
  | succ n ih =>
      intro hist mk hist1 mk1 hnd hmax hrun
      rw [evictLoop] at hrun
      cases hl : lookupA hist mk with
      | none => rw [hl] at hrun; simp at hrun
      | some top =>
          simp only [hl] at hrun
          by_cases hc : t - top.datetime > L
          · rw [if_pos hc] at hrun
            cases hm2 : maxOfKeys (eraseA hist mk) with
            | none => simp only [hm2] at hrun; exact absurd hrun (by simp)
            | some m =>
                simp only [hm2] at hrun
                have hnd2 : NodupKeys (eraseA hist mk) := nodup_eraseA hnd
                obtain ⟨ih1, ih2, ih3, ih4, ih5⟩ :=
                  ih (eraseA hist mk) m hist1 mk1 hnd2 hm2 hrun
                have hmlt : m < mk := by
                  obtain ⟨hmm, _⟩ := maxOfKeys_spec hm2
                  have hmne : m ≠ mk := by
                    intro hh
                    exact not_mem_keysA_eraseA_self hnd (hh ▸ hmm)
                  exact lt_of_le_of_ne
                    ((maxOfKeys_spec hmax).2 m (keysA_eraseA_subset hmm)) hmne
                have hmk1m : mk1 ≤ m := by
                  obtain ⟨hm1m, _⟩ := maxOfKeys_spec ih2
                  exact ((maxOfKeys_spec hm2).2 mk1 (ih4 mk1 hm1m).1)
                refine ⟨ih1, ih2, ?_, ?_, ih5⟩
                · intro k e hk hkle
                  have hkne : k ≠ mk := by
                    intro hh
                    rw [hh] at hkle
                    exact absurd hkle (not_le.mpr (lt_of_le_of_lt hmk1m hmlt))
                  exact ih3 k e ((lookupA_eraseA_ne hkne).trans hk) hkle
                · intro k hk
                  obtain ⟨hk1, hk2⟩ := ih4 k hk
                  exact ⟨keysA_eraseA_subset hk1, hk2⟩
          · rw [if_neg hc] at hrun
            simp only [Except.ok.injEq, Prod.mk.injEq] at hrun
            obtain ⟨hh, hm⟩ := hrun
            subst hh; subst hm
            refine ⟨hnd, hmax, fun k e hk _ => hk, ?_, top, hl, not_lt.mp hc⟩
            intro k hk
            exact ⟨hk, (maxOfKeys_spec hmax).2 k hk⟩

/-- Immediate break of the eviction loop: when the entry under the cached
maximum is fresh, the loop leaves the history untouched. -/
theorem evictLoop_break {L t : ℚ} {fuel : Nat} {hist : History}
    {mk : ℚ} {top : PriceAtTime} (hl : lookupA hist mk = some top)
    (hfresh : t - top.datetime ≤ L) :
    evictLoop L t (fuel + 1) hist mk = .ok (hist, mk) := by
  rw [evictLoop, hl]
  simp only
  rw [if_neg (not_lt.mpr hfresh)]

/-- `store` on a storage whose cached-maximum entry is fresh: nothing is
evicted, the new observation is inserted and the cached maximum updated. -/
theorem store_break {s : LocalSymbolStorage} {top obs : PriceAtTime}
    (hl : lookupA s.price_history s.max_key = some top)
    (hfresh : obs.datetime - top.datetime ≤ s.lifetime) :
    s.store obs =
      .ok { s with
            price_history := insertA s.price_history obs.price obs
            max_key := max obs.price s.max_key } := by
  rw [LocalSymbolStorage.store, evictLoop_break hl hfresh]

/-- Inversion of a successful `reg_price`: the alert flag is exactly the
comparison of the pre-call reference price against the threshold, and the
resulting monitor is the pre-call monitor with the observation stored. -/
theorem reg_price_ok_inv {m : SymbolMonitor} {p t : ℚ} {fired : Bool}
    {m1 : SymbolMonitor} (hrun : m.reg_price p t = .ok (fired, m1)) :
    ∃ d st, m.calcFn m.storage.get_price p = some d ∧
      fired = decide (d > m.threshold) ∧
      m.storage.store ⟨p, t⟩ = .ok st ∧
      m1 = { m with storage := st } := by
  rw [SymbolMonitor.reg_price] at hrun
  simp only at hrun
  cases hd : m.calcFn m.storage.get_price p with
  | none => rw [hd] at hrun; simp at hrun
  | some d =>
      rw [hd] at hrun
      simp only at hrun
      cases hs : m.storage.store ⟨p, t⟩ with
      | error e => rw [hs] at hrun; simp at hrun
      | ok st =>
          rw [hs] at hrun
          simp only [Except.ok.injEq, Prod.mk.injEq] at hrun
          exact ⟨d, st, rfl, hrun.1.symm, rfl, hrun.2.symm⟩

/-- Forward direction: from a computed diff and a successful store,
compute `reg_price`. -/
theorem reg_price_ok {m : SymbolMonitor} {p t d : ℚ} {st : LocalSymbolStorage}
    (hd : m.calcFn m.storage.get_price p = some d)
    (hs : m.storage.store ⟨p, t⟩ = .ok st) :
    m.reg_price p t = .ok (decide (d > m.threshold), { m with storage := st }) := by
  rw [SymbolMonitor.reg_price]
  simp only
  rw [hd, hs]

/-! ## Storage invariant -/

/-- The storage invariant: the price history is nonempty with unique keys,
`_max_key` is its numerically largest key, and the lifetime window is
nonnegative (as `timedelta(hours=1)` is). -/
def Inv (s : LocalSymbolStorage) : Prop :=
  s.price_history ≠ [] ∧ NodupKeys s.price_history ∧
    maxOfKeys s.price_history = some s.max_key ∧ 0 ≤ s.lifetime

/-! ## Claims -/

/-- **C1** (code bug): the claim states that the eviction loop never leaves
the price history empty and never fails to recompute a maximum, *including*
for a first real observation arriving more than `lifetime` after the
sentinel. The code refutes this: on a fresh store (sentinel at time `0`,
lifetime `3600`), storing a first observation at time `3601` pops the
sentinel, leaving the dict empty, and `max(self._price_history.keys())`
then raises `ValueError` (the `emptyHistory` error of the embedding). -/
theorem C1_first_stale_observation_crashes :
    (mkLocalSymbolStorage 3600 0).store ⟨10, 3601⟩ = .error .emptyHistory := by
  norm_num [LocalSymbolStorage.store, evictLoop, mkLocalSymbolStorage,
    lookupA, eraseA, maxOfKeys, insertA]

/-- **C2** (confirmed): after construction (with a nonnegative lifetime) and
after every completed `store(obs)` call from an invariant state, `_max_key`
is the numerically largest price key present in the price history, and the
observation stored under `_max_key` is no older than `lifetime` relative to
the just-stored observation's timestamp. -/
theorem C2_max_key_is_fresh_maximum :
    (∀ (L t0 : ℚ), 0 ≤ L → Inv (mkLocalSymbolStorage L t0)) ∧
    (∀ (s : LocalSymbolStorage) (obs : PriceAtTime) (s1 : LocalSymbolStorage),
      Inv s → s.store obs = .ok s1 →
      Inv s1 ∧
      (s1.max_key ∈ keysA s1.price_history ∧
        ∀ k ∈ keysA s1.price_history, k ≤ s1.max_key) ∧
      ∃ e, lookupA s1.price_history s1.max_key = some e ∧
        obs.datetime - e.datetime ≤ s1.lifetime) := by
  constructor
  · intro L t0 hL
    refine ⟨by simp [mkLocalSymbolStorage], ?_, ?_, hL⟩
    · simp [mkLocalSymbolStorage, NodupKeys, keysA]
    · simp [mkLocalSymbolStorage, maxOfKeys]
  · intro s obs s1 hInv hstore
    obtain ⟨hne, hnd, hmax, hL⟩ := hInv
    rw [LocalSymbolStorage.store] at hstore
    cases he : evictLoop s.lifetime obs.datetime (s.price_history.length + 1)
        s.price_history s.max_key with
    | error e => rw [he] at hstore; exact absurd hstore (by simp)
    | ok pr =>
        obtain ⟨hist1, mk1⟩ := pr
        rw [he] at hstore
        simp only [Except.ok.injEq] at hstore
        obtain ⟨ih1, ih2, ih3, ih4, top, htop, hfresh⟩ :=
          evictLoop_ok_spec _ s.price_history s.max_key hist1 mk1 hnd hmax he
        subst hstore
        have hmax1 : maxOfKeys (insertA hist1 obs.price obs) =
            some (max obs.price mk1) := maxOfKeys_insertA ih2
        refine ⟨⟨insertA_ne_nil, nodup_insertA ih1, hmax1, hL⟩, ?_, ?_⟩
        · exact (maxOfKeys_spec hmax1).imp id (fun hub => hub)
        · rcases le_or_lt mk1 obs.price with hcase | hcase
          · refine ⟨obs, ?_, ?_⟩
            · have : max obs.price mk1 = obs.price := max_eq_left hcase
              rw [this]
              exact lookupA_insertA_self
            · rw [sub_self]
              exact hL
          · refine ⟨top, ?_, hfresh⟩
            have hmm : max obs.price mk1 = mk1 := max_eq_right (le_of_lt hcase)
            rw [hmm]
            rw [lookupA_insertA_ne (ne_of_gt hcase)]
            exact htop

/-- Witness for C2 at a concrete input: a fresh store (lifetime 3600,
sentinel at time 0) receiving the observation `(10, 100)`. -/
theorem C2_max_key_is_fresh_maximum_witness :
    Inv (mkLocalSymbolStorage 3600 0) ∧
    (∃ e, lookupA [(-1, ⟨-1, 0⟩), (10, ⟨10, 100⟩)] 10 = some e ∧
      (100 : ℚ) - e.datetime ≤ 3600) := by
  have hInv : Inv (mkLocalSymbolStorage 3600 0) :=
    C2_max_key_is_fresh_maximum.1 3600 0 (by norm_num)
  have hstep := C2_max_key_is_fresh_maximum.2 (mkLocalSymbolStorage 3600 0)
    ⟨10, 100⟩
    { lifetime := 3600
      price_history := [(-1, ⟨-1, 0⟩), (10, ⟨10, 100⟩)]
      max_key := 10 }
    hInv
    (by norm_num [LocalSymbolStorage.store, evictLoop, mkLocalSymbolStorage,
      lookupA, eraseA, maxOfKeys, insertA])
  exact ⟨hInv, hstep.2.2⟩

/-- **C3** (confirmed): a fresh monitor with threshold `0.01` and the
default relative-drop comparison, fed `10, 100, 99` at any monotone times
within the lifetime window, fires no alert on the first two ticks and
exactly one alert, on the third tick. -/
theorem C3_alert_exactly_on_third_tick
    (t0 t1 t2 t3 : ℚ) (h01 : t0 ≤ t1) (h12 : t1 ≤ t2) (h23 : t2 ≤ t3)
    (hwin : t3 - t0 ≤ 3600) :
    ∃ mfinal,
      runPrices (init_monitor "test" (1/100) t0)
        [(10, t1), (100, t2), (99, t3)] =
      .ok ([false, false, true], mfinal) := by
  have hs1 : (mkLocalSymbolStorage 3600 t0).store ⟨10, t1⟩ =
      .ok { lifetime := 3600
            price_history := [(-1, ⟨-1, t0⟩), (10, ⟨10, t1⟩)]
            max_key := 10 } := by
    rw [@store_break _ ⟨-1, t0⟩ _
      (by norm_num [mkLocalSymbolStorage, lookupA])
      (by show t1 - t0 ≤ (3600 : ℚ); linarith)]
    norm_num [mkLocalSymbolStorage, insertA, max_def]
  have hd1 : (init_monitor "test" (1/100) t0).calcFn
      ((init_monitor "test" (1/100) t0).storage.get_price) 10 =
      some ((-1 - 10) / 10) := by
    show DROP_RELATIVE (-1) 10 = some ((-1 - 10) / 10)
    norm_num [DROP_RELATIVE]
  have hr1 : (init_monitor "test" (1/100) t0).reg_price 10 t1 =
      .ok (false,
        { symbol := "test", threshold := 1/100, calcFn := DROP_RELATIVE
          storage := { lifetime := 3600
                       price_history := [(-1, ⟨-1, t0⟩), (10, ⟨10, t1⟩)]
                       max_key := 10 } }) := by
    rw [reg_price_ok hd1 hs1]
    norm_num [init_monitor, mkSymbolMonitor]
  have hs2 : ({ lifetime := 3600
                price_history := [(-1, ⟨-1, t0⟩), (10, ⟨10, t1⟩)]
                max_key := 10 } : LocalSymbolStorage).store ⟨100, t2⟩ =
      .ok { lifetime := 3600
            price_history := [(-1, ⟨-1, t0⟩), (10, ⟨10, t1⟩), (100, ⟨100, t2⟩)]
            max_key := 100 } := by
    rw [@store_break _ ⟨10, t1⟩ _
      (by norm_num [lookupA])
      (by show t2 - t1 ≤ (3600 : ℚ); linarith)]
    norm_num [insertA, max_def]
  have hd2 : ({ symbol := "test", threshold := 1/100, calcFn := DROP_RELATIVE
                storage := { lifetime := 3600
                             price_history := [(-1, ⟨-1, t0⟩), (10, ⟨10, t1⟩)]
                             max_key := 10 } } : SymbolMonitor).calcFn
      (({ symbol := "test", threshold := 1/100, calcFn := DROP_RELATIVE
          storage := { lifetime := 3600
                       price_history := [(-1, ⟨-1, t0⟩), (10, ⟨10, t1⟩)]
                       max_key := 10 } } : SymbolMonitor).storage.get_price) 100 =
      some ((10 - 100) / 100) := by
    show DROP_RELATIVE 10 100 = some ((10 - 100) / 100)
    norm_num [DROP_RELATIVE]
  have hr2 : ({ symbol := "test", threshold := 1/100, calcFn := DROP_RELATIVE
                storage := { lifetime := 3600
                             price_history := [(-1, ⟨-1, t0⟩), (10, ⟨10, t1⟩)]
                             max_key := 10 } } : SymbolMonitor).reg_price 100 t2 =
      .ok (false,
        { symbol := "test", threshold := 1/100, calcFn := DROP_RELATIVE
          storage := { lifetime := 3600
                       price_history :=
                         [(-1, ⟨-1, t0⟩), (10, ⟨10, t1⟩), (100, ⟨100, t2⟩)]
                       max_key := 100 } }) := by
    rw [reg_price_ok hd2 hs2]
    norm_num
  have hs3 : ({ lifetime := 3600
                price_history := [(-1, ⟨-1, t0⟩), (10, ⟨10, t1⟩), (100, ⟨100, t2⟩)]
                max_key := 100 } : LocalSymbolStorage).store ⟨99, t3⟩ =
      .ok { lifetime := 3600
            price_history := [(-1, ⟨-1, t0⟩), (10, ⟨10, t1⟩), (100, ⟨100, t2⟩),
                              (99, ⟨99, t3⟩)]
            max_key := 100 } := by
    rw [@store_break _ ⟨100, t2⟩ _
      (by norm_num [lookupA])
      (by show t3 - t2 ≤ (3600 : ℚ); linarith)]
    norm_num [insertA, max_def]
  have hd3 : ({ symbol := "test", threshold := 1/100, calcFn := DROP_RELATIVE
                storage := { lifetime := 3600
                             price_history :=
                               [(-1, ⟨-1, t0⟩), (10, ⟨10, t1⟩), (100, ⟨100, t2⟩)]
                             max_key := 100 } } : SymbolMonitor).calcFn
      (({ symbol := "test", threshold := 1/100, calcFn := DROP_RELATIVE
          storage := { lifetime := 3600
                       price_history :=
                         [(-1, ⟨-1, t0⟩), (10, ⟨10, t1⟩), (100, ⟨100, t2⟩)]
                       max_key := 100 } } : SymbolMonitor).storage.get_price) 99 =
      some ((100 - 99) / 99) := by
    show DROP_RELATIVE 100 99 = some ((100 - 99) / 99)
    norm_num [DROP_RELATIVE]
  have hr3 : ({ symbol := "test", threshold := 1/100, calcFn := DROP_RELATIVE
                storage := { lifetime := 3600
                             price_history :=
                               [(-1, ⟨-1, t0⟩), (10, ⟨10, t1⟩), (100, ⟨100, t2⟩)]
                             max_key := 100 } } : SymbolMonitor).reg_price 99 t3 =
      .ok (true,
        { symbol := "test", threshold := 1/100, calcFn := DROP_RELATIVE
          storage := { lifetime := 3600
                       price_history :=
                         [(-1, ⟨-1, t0⟩), (10, ⟨10, t1⟩), (100, ⟨100, t2⟩),
                          (99, ⟨99, t3⟩)]
                       max_key := 100 } }) := by
    rw [reg_price_ok hd3 hs3]
    norm_num
  refine ⟨{ symbol := "test", threshold := 1/100, calcFn := DROP_RELATIVE
            storage := { lifetime := 3600
                         price_history :=
                           [(-1, ⟨-1, t0⟩), (10, ⟨10, t1⟩), (100, ⟨100, t2⟩),
                            (99, ⟨99, t3⟩)]
                         max_key := 100 } }, ?_⟩
  simp only [runPrices, hr1, hr2, hr3]

/-- Witness for C3: construction at time `0`, ticks at times `1, 2, 3`. -/
theorem C3_alert_exactly_on_third_tick_witness :
    ∃ mfinal,
      runPrices (init_monitor "test" (1/100) 0) [(10, 1), (100, 2), (99, 3)] =
      .ok ([false, false, true], mfinal) :=
  C3_alert_exactly_on_third_tick 0 1 2 3 (by norm_num) (by norm_num)
    (by norm_num) (by norm_num)

/-- The hypothesis of the no-alert property: along the given tick sequence,
whenever the comparison of the current reference price against the incoming
price yields a value, that value does not exceed the monitor's threshold,
and recursively so for the monitor states that follow. -/
def noDropExceeds (m : SymbolMonitor) : List (ℚ × ℚ) → Prop
  | [] => True
  | (p, t) :: rest =>
      (∀ d, m.calcFn m.storage.get_price p = some d → d ≤ m.threshold) ∧
      (∀ fired m1, m.reg_price p t = .ok (fired, m1) → noDropExceeds m1 rest)

/-- **C4** (confirmed): if along a tick sequence the computed drop from the
store's current reference price never exceeds the (positive) threshold, no
alert ever fires; in particular feeding `10, 100, 99.8` (i.e. `499/5`) to a
fresh threshold-`0.01` monitor produces zero alerts. -/
theorem C4_no_alert_below_threshold :
    (∀ (m : SymbolMonitor) (ticks : List (ℚ × ℚ)) (flags : List Bool)
        (m1 : SymbolMonitor),
      0 < m.threshold → noDropExceeds m ticks →
      runPrices m ticks = .ok (flags, m1) → ∀ b ∈ flags, b = false) ∧
    (∃ mfinal,
      runPrices (init_monitor "test" (1/100) 0) [(10, 1), (100, 2), (499/5, 3)] =
      .ok ([false, false, false], mfinal)) := by
  constructor
  · intro m ticks
    induction ticks generalizing m with
    | nil =>
        intro flags m1 _ _ hrun
        rw [runPrices] at hrun
        simp only [Except.ok.injEq, Prod.mk.injEq] at hrun
        intro b hb
        rw [← hrun.1] at hb
        simp at hb
    | cons pt rest ih =>
        obtain ⟨p, t⟩ := pt
        intro flags m1 hpos hnd hrun
        rw [runPrices] at hrun
        cases hr : m.reg_price p t with
        | error e => simp only [hr] at hrun; exact absurd hrun (by simp)
        | ok pr =>
            obtain ⟨fired, m2⟩ := pr
            simp only [hr] at hrun
            cases hrest : runPrices m2 rest with
            | error e =>
                simp only [hrest] at hrun
                exact absurd hrun (by simp)
            | ok pr2 =>
                obtain ⟨flags2, m3⟩ := pr2
                simp only [hrest, Except.ok.injEq, Prod.mk.injEq] at hrun
                obtain ⟨d, st, hd, hfired, hs, hm2⟩ := reg_price_ok_inv hr
                have hdle : d ≤ m.threshold := hnd.1 d hd
                have hfalse : fired = false := by
                  rw [hfired]
                  exact decide_eq_false (not_lt.mpr hdle)
                have hpos2 : 0 < m2.threshold := by rw [hm2]; exact hpos
                have hrec := ih m2 flags2 m3 hpos2 (hnd.2 fired m2 hr) hrest
                intro b hb
                rw [← hrun.1] at hb
                rcases List.mem_cons.mp hb with hb | hb
                · rw [hb]; exact hfalse
                · exact hrec b hb
  · refine ⟨{ symbol := "test", threshold := 1/100, calcFn := DROP_RELATIVE
              storage := { lifetime := 3600
                           price_history :=
                             [(-1, ⟨-1, 0⟩), (10, ⟨10, 1⟩), (100, ⟨100, 2⟩),
                              (499/5, ⟨499/5, 3⟩)]
                           max_key := 100 } }, ?_⟩
    norm_num [runPrices, SymbolMonitor.reg_price, LocalSymbolStorage.store,
      evictLoop, LocalSymbolStorage.get_price, init_monitor, mkSymbolMonitor,
      mkLocalSymbolStorage, DROP_RELATIVE, lookupA, insertA, eraseA,
      maxOfKeys, max_def]

/-- Witness for C4's universally quantified part: one below-threshold tick
(price `10` against the sentinel reference `-1`) fires nothing. -/
theorem C4_no_alert_below_threshold_witness :
    ∀ b ∈ ([false] : List Bool), b = false := by
  have hnd : noDropExceeds (init_monitor "test" (1/100) 0) [(10, 1)] := by
    refine ⟨?_, fun fired m1 _ => trivial⟩
    intro d hd
    have : DROP_RELATIVE (-1) 10 = some d := hd
    rw [DROP_RELATIVE] at this
    norm_num at this
    rw [← this]
    norm_num [init_monitor, mkSymbolMonitor]
  refine C4_no_alert_below_threshold.1 (init_monitor "test" (1/100) 0)
    [(10, 1)] [false]
    { symbol := "test", threshold := 1/100, calcFn := DROP_RELATIVE
      storage := { lifetime := 3600
                   price_history := [(-1, ⟨-1, 0⟩), (10, ⟨10, 1⟩)]
                   max_key := 10 } }
    (by norm_num [init_monitor, mkSymbolMonitor]) hnd ?_
  norm_num [runPrices, SymbolMonitor.reg_price, LocalSymbolStorage.store,
    evictLoop, LocalSymbolStorage.get_price, init_monitor, mkSymbolMonitor,
    mkLocalSymbolStorage, DROP_RELATIVE, lookupA, insertA, eraseA,
    maxOfKeys, max_def]

/-- **C5** (confirmed): in every completed `reg_price(p)` call, the alert
decision is computed from the comparison of the *pre-call* reference price
against `p`, and the new observation is stored unconditionally — the
resulting monitor is the pre-call monitor with `store` applied, the same
whether or not the alert fired. -/
theorem C5_comparison_precedes_store
    (m : SymbolMonitor) (p t : ℚ) (fired : Bool) (m1 : SymbolMonitor)
    (hrun : m.reg_price p t = .ok (fired, m1)) :
    (∃ d, m.calcFn m.storage.get_price p = some d ∧
      (fired = true ↔ d > m.threshold)) ∧
    (∃ st, m.storage.store ⟨p, t⟩ = .ok st ∧ m1 = { m with storage := st }) := by
  obtain ⟨d, st, hd, hfired, hs, hm⟩ := reg_price_ok_inv hrun
  refine ⟨⟨d, hd, ?_⟩, st, hs, hm⟩
  rw [hfired]
  simp

/-- Witness for C5: the first tick `10` at time `1` on a fresh monitor. -/
theorem C5_comparison_precedes_store_witness :
    (∃ d, (init_monitor "test" (1/100) 0).calcFn
        ((init_monitor "test" (1/100) 0).storage.get_price) 10 = some d ∧
      (false = true ↔ d > (init_monitor "test" (1/100) 0).threshold)) ∧
    (∃ st, (init_monitor "test" (1/100) 0).storage.store ⟨10, 1⟩ = .ok st ∧
      ({ symbol := "test", threshold := 1/100, calcFn := DROP_RELATIVE
         storage := { lifetime := 3600
                      price_history := [(-1, ⟨-1, 0⟩), (10, ⟨10, 1⟩)]
                      max_key := 10 } } : SymbolMonitor) =
        { init_monitor "test" (1/100) 0 with storage := st }) :=
  C5_comparison_precedes_store (init_monitor "test" (1/100) 0) 10 1 false
    { symbol := "test", threshold := 1/100, calcFn := DROP_RELATIVE
      storage := { lifetime := 3600
                   price_history := [(-1, ⟨-1, 0⟩), (10, ⟨10, 1⟩)]
                   max_key := 10 } }
    (by norm_num [SymbolMonitor.reg_price, LocalSymbolStorage.store,
      evictLoop, LocalSymbolStorage.get_price, init_monitor, mkSymbolMonitor,
      mkLocalSymbolStorage, DROP_RELATIVE, lookupA, insertA, eraseA,
      maxOfKeys, max_def])

/-- **C6 counterexample**: the sentinel is *not* evicted once real data ages
past it and exceeds it in value. A fresh store (sentinel at time `0`,
lifetime `3600`) receives `(10, 100)` and then `(20, 3700)`; the second
observation arrives more than `lifetime` after the sentinel's timestamp and
exceeds `-1` in value, yet after both completed stores the sentinel entry
is still in the price history. -/
theorem C6_sentinel_never_evicted_counterexample :
    (mkLocalSymbolStorage 3600 0).store ⟨10, 100⟩ =
      .ok { lifetime := 3600
            price_history := [(-1, ⟨-1, 0⟩), (10, ⟨10, 100⟩)]
            max_key := 10 } ∧
    ({ lifetime := 3600
       price_history := [(-1, ⟨-1, 0⟩), (10, ⟨10, 100⟩)]
       max_key := 10 } : LocalSymbolStorage).store ⟨20, 3700⟩ =
      .ok { lifetime := 3600
            price_history := [(-1, ⟨-1, 0⟩), (10, ⟨10, 100⟩), (20, ⟨20, 3700⟩)]
            max_key := 20 } ∧
    (3700 : ℚ) - 0 > 3600 ∧ (20 : ℚ) > -1 ∧
    lookupA [((-1 : ℚ), (⟨-1, 0⟩ : PriceAtTime)), (10, ⟨10, 100⟩),
      (20, ⟨20, 3700⟩)] (-1) = some ⟨-1, 0⟩ := by
  refine ⟨?_, ?_, by norm_num, by norm_num, by norm_num [lookupA]⟩ <;>
    norm_num [LocalSymbolStorage.store, evictLoop, mkLocalSymbolStorage,
      lookupA, eraseA, maxOfKeys, insertA, max_def]

/-- **C6 amended**: once the sentinel key `-1` is present and every key in
the history is `≥ -1` (true whenever only real prices above `-1` have been
stored), no completed `store` call ever removes it: the eviction loop only
pops maximal keys, so the sentinel — the minimum — survives every
successful store, no matter how stale or superseded it is. -/
theorem C6_sentinel_persists
    (s : LocalSymbolStorage) (obs : PriceAtTime) (s1 : LocalSymbolStorage)
    (hnd : NodupKeys s.price_history)
    (hmax : maxOfKeys s.price_history = some s.max_key)
    (hlow : ∀ k ∈ keysA s.price_history, -1 ≤ k)
    (hsent : (-1 : ℚ) ∈ keysA s.price_history)
    (hstore : s.store obs = .ok s1) :
    (-1 : ℚ) ∈ keysA s1.price_history := by
  rw [LocalSymbolStorage.store] at hstore
  cases he : evictLoop s.lifetime obs.datetime (s.price_history.length + 1)
      s.price_history s.max_key with
  | error e => rw [he] at hstore; exact absurd hstore (by simp)
  | ok pr =>
      obtain ⟨hist1, mk1⟩ := pr
      rw [he] at hstore
      simp only [Except.ok.injEq] at hstore
      obtain ⟨_, ih2, ih3, ih4, _⟩ :=
        evictLoop_ok_spec _ s.price_history s.max_key hist1 mk1 hnd hmax he
      have hmk1 : (-1 : ℚ) ≤ mk1 := by
        have hmem : mk1 ∈ keysA hist1 := (maxOfKeys_spec ih2).1
        exact hlow mk1 (ih4 mk1 hmem).1
      obtain ⟨v, hv⟩ := mem_keysA_lookupA hsent
      have hkeep : lookupA hist1 (-1) = some v := ih3 (-1) v hv hmk1
      rw [← hstore]
      exact mem_keysA_insertA.mpr (Or.inr (lookupA_mem_keysA hkeep))

/-- Witness for C6's amended theorem: the store holding the sentinel and a
real entry `10` receives `(20, 3700)`; the sentinel survives. -/
theorem C6_sentinel_persists_witness :
    (-1 : ℚ) ∈ keysA [((-1 : ℚ), (⟨-1, 0⟩ : PriceAtTime)), (10, ⟨10, 100⟩),
      (20, ⟨20, 3700⟩)] :=
  C6_sentinel_persists
    { lifetime := 3600
      price_history := [(-1, ⟨-1, 0⟩), (10, ⟨10, 100⟩)]
      max_key := 10 }
    ⟨20, 3700⟩
    { lifetime := 3600
      price_history := [(-1, ⟨-1, 0⟩), (10, ⟨10, 100⟩), (20, ⟨20, 3700⟩)]
      max_key := 20 }
    (by norm_num [NodupKeys, keysA])
    (by norm_num [maxOfKeys, max_def])
    (by norm_num [keysA])
    (by norm_num [keysA])
    (by norm_num [LocalSymbolStorage.store, evictLoop, lookupA, eraseA,
      maxOfKeys, insertA, max_def])

/-- **C7 counterexample**: the default relative-drop comparison does raise
at `new = 0` — in Python, `(old - new) / new` raises `ZeroDivisionError`
there (floats included), modelled by `none`. -/
theorem C7_drop_relative_raises_at_zero_counterexample :
    DROP_RELATIVE 1 0 = none := by
  simp [DROP_RELATIVE]

/-- **C7 amended**: for every pair of (rational-valued) arguments with
`new ≠ 0`, the default comparison completes without raising and returns
`(old - new) / new`; the no-raise guarantee holds everywhere except the
division-by-zero point, which the spec itself flags as unhandled. -/
theorem C7_drop_relative_total_off_zero (old new : ℚ) (hne : new ≠ 0) :
    DROP_RELATIVE old new = some ((old - new) / new) := by
  simp [DROP_RELATIVE, hne]

/-- Witness for C7's amended theorem at `old = 3`, `new = 2`. -/
theorem C7_drop_relative_total_off_zero_witness :
    DROP_RELATIVE 3 2 = some ((3 - 2) / 2) :=
  C7_drop_relative_total_off_zero 3 2 (by norm_num)

/-- **C8 counterexample**: dispatching a tick for an identifier absent from
the monitor table does *not* raise the designated error of line 163
(`Exception("Monitor for stream ... not created")`): `monitors[stream]`
raises a `KeyError` first, so the designated branch is dead code. With the
table built for `xrpusdt` only, dispatching `btcusdt@trade` yields the
`KeyError`, not the designated error. -/
theorem C8_missing_stream_keyerror_counterexample :
    handler [("xrpusdt@trade", init_monitor "xrpusdt" (1/100) 0)]
        "btcusdt@trade" 5 0 =
      .error (.keyError "btcusdt@trade") ∧
    handler [("xrpusdt@trade", init_monitor "xrpusdt" (1/100) 0)]
        "btcusdt@trade" 5 0 ≠
      .error (.monitorNotCreated "btcusdt@trade") := by
  have h : handler [("xrpusdt@trade", init_monitor "xrpusdt" (1/100) 0)]
      "btcusdt@trade" 5 0 = .error (.keyError "btcusdt@trade") := by
    simp [handler, lookupMonitor]
  refine ⟨h, ?_⟩
  rw [h]
  simp

/-- **C8 amended**: dispatching a tick for an identifier absent from the
monitor table raises an error (a `KeyError` from the dict lookup — it is
surfaced, not dropped) and, the error being raised before any monitor is
touched, leaves every monitor state unchanged; the error raised is the
`KeyError`, never the designated line-163 exception, whose branch is
unreachable because every `SymbolMonitor` instance is truthy. -/
theorem C8_missing_stream_raises_keyerror
    (monitors : List (String × SymbolMonitor)) (stream : String) (p t : ℚ)
    (habs : lookupMonitor monitors stream = none) :
    handler monitors stream p t = .error (.keyError stream) ∧
    handler monitors stream p t ≠ .error (.monitorNotCreated stream) := by
  have h : handler monitors stream p t = .error (.keyError stream) := by
    rw [handler, habs]
  refine ⟨h, ?_⟩
  rw [h]
  simp

/-- Witness for C8's amended theorem at the concrete single-entry table. -/
theorem C8_missing_stream_raises_keyerror_witness :
    handler [("xrpusdt@trade", init_monitor "xrpusdt" (1/100) 0)]
        "btcusdt@trade" 5 0 =
      .error (.keyError "btcusdt@trade") ∧
    handler [("xrpusdt@trade", init_monitor "xrpusdt" (1/100) 0)]
        "btcusdt@trade" 5 0 ≠
      .error (.monitorNotCreated "btcusdt@trade") :=
  C8_missing_stream_raises_keyerror
    [("xrpusdt@trade", init_monitor "xrpusdt" (1/100) 0)]
    "btcusdt@trade" 5 0 (by simp [lookupMonitor])

/-- **C9** (confirmed): the very first `reg_price(p)` with `p > 0` on a
fresh monitor with positive threshold, arriving within `lifetime` of
construction, never fires the alert: the reference price is the sentinel
`-1` and `(-1 - p) / p` is negative. -/
theorem C9_first_tick_never_alerts
    (sym : String) (θ p t0 t1 : ℚ) (hθ : 0 < θ) (hp : 0 < p)
    (h01 : t0 ≤ t1) (hwin : t1 - t0 ≤ 3600) :
    ∃ m1, (init_monitor sym θ t0).reg_price p t1 = .ok (false, m1) := by
  have hd : (init_monitor sym θ t0).calcFn
      ((init_monitor sym θ t0).storage.get_price) p = some ((-1 - p) / p) := by
    show DROP_RELATIVE (-1) p = some ((-1 - p) / p)
    simp [DROP_RELATIVE, ne_of_gt hp]
  have hs := @store_break (mkLocalSymbolStorage 3600 t0) ⟨-1, t0⟩
    ⟨p, t1⟩ (by norm_num [mkLocalSymbolStorage, lookupA])
    (by show t1 - t0 ≤ (3600 : ℚ); linarith)
  have hneg : (-1 - p) / p < 0 := div_neg_of_neg_of_pos (by linarith) hp
  have hdec : decide ((-1 - p) / p > (init_monitor sym θ t0).threshold) =
      false := by
    refine decide_eq_false ?_
    show ¬ ((-1 - p) / p > θ)
    exact not_lt.mpr (le_of_lt (hneg.trans hθ))
  have hrun := reg_price_ok hd hs
  rw [hdec] at hrun
  exact ⟨_, hrun⟩

/-- Witness for C9: price `10` at time `1` on a monitor built at time `0`
with threshold `0.01`. -/
theorem C9_first_tick_never_alerts_witness :
    ∃ m1, (init_monitor "test" (1/100) 0).reg_price 10 1 = .ok (false, m1) :=
  C9_first_tick_never_alerts "test" (1/100) 10 0 1 (by norm_num) (by norm_num)
    (by norm_num) (by norm_num)

/-- **C10** (confirmed): the eviction loop only ever removes the entry that
is the current maximum key at the moment of eviction — equivalently, the
set of keys it removes is upward closed among the pre-call keys — and
`store` preserves, verbatim and with *no* freshness condition, every entry
strictly below a surviving pre-existing key; in particular non-maximum
stale entries stay in the mapping. -/
theorem C10_only_current_max_evicted :
    (∀ (L t : ℚ) (fuel : Nat) (hist : History) (mk : ℚ)
        (hist1 : History) (mk1 : ℚ),
      NodupKeys hist → maxOfKeys hist = some mk →
      evictLoop L t fuel hist mk = .ok (hist1, mk1) →
      ∀ k j, k ∈ keysA hist → j ∈ keysA hist → k ∉ keysA hist1 → k < j →
        j ∉ keysA hist1) ∧
    (∀ (s : LocalSymbolStorage) (obs : PriceAtTime) (s1 : LocalSymbolStorage),
      NodupKeys s.price_history →
      maxOfKeys s.price_history = some s.max_key →
      s.store obs = .ok s1 →
      ∀ k j e, lookupA s.price_history k = some e →
        j ∈ keysA s1.price_history → j ≠ obs.price → k < j →
        k ≠ obs.price →
        lookupA s1.price_history k = some e) := by
  constructor
  · intro L t fuel hist mk hist1 mk1 hnd hmax hrun k j hk _ hknot hlt hj1
    obtain ⟨_, _, ih3, ih4, _⟩ :=
      evictLoop_ok_spec fuel hist mk hist1 mk1 hnd hmax hrun
    have hjle : j ≤ mk1 := (ih4 j hj1).2
    obtain ⟨e, he⟩ := mem_keysA_lookupA hk
    have : lookupA hist1 k = some e :=
      ih3 k e he (le_of_lt (lt_of_lt_of_le hlt hjle))
    exact hknot (lookupA_mem_keysA this)
  · intro s obs s1 hnd hmax hstore k j e hk hj1 hjne hlt hkne
    rw [LocalSymbolStorage.store] at hstore
    cases he : evictLoop s.lifetime obs.datetime (s.price_history.length + 1)
        s.price_history s.max_key with
    | error err => rw [he] at hstore; exact absurd hstore (by simp)
    | ok pr =>
        obtain ⟨hist1, mk1⟩ := pr
        rw [he] at hstore
        simp only [Except.ok.injEq] at hstore
        obtain ⟨_, _, ih3, ih4, _⟩ :=
          evictLoop_ok_spec _ s.price_history s.max_key hist1 mk1 hnd hmax he
        have hj1h : j ∈ keysA hist1 := by
          rw [← hstore] at hj1
          rcases mem_keysA_insertA.mp hj1 with hh | hh
          · exact absurd hh hjne
          · exact hh
        have hkle : k ≤ mk1 := le_of_lt (lt_of_lt_of_le hlt (ih4 j hj1h).2)
        have hkeep : lookupA hist1 k = some e := ih3 k e hk hkle
        rw [← hstore]
        rw [lookupA_insertA_ne hkne]
        exact hkeep

/-- Witness for C10: the sentinel entry (stale and non-maximal) survives
the store call `(20, 3700)` on the two-entry history verbatim. -/
theorem C10_only_current_max_evicted_witness :
    lookupA [((-1 : ℚ), (⟨-1, 0⟩ : PriceAtTime)), (10, ⟨10, 100⟩),
      (20, ⟨20, 3700⟩)] (-1) = some ⟨-1, 0⟩ :=
  C10_only_current_max_evicted.2
    { lifetime := 3600
      price_history := [(-1, ⟨-1, 0⟩), (10, ⟨10, 100⟩)]
      max_key := 10 }
    ⟨20, 3700⟩
    { lifetime := 3600
      price_history := [(-1, ⟨-1, 0⟩), (10, ⟨10, 100⟩), (20, ⟨20, 3700⟩)]
      max_key := 20 }
    (by norm_num [NodupKeys, keysA])
    (by norm_num [maxOfKeys, max_def])
    (by norm_num [LocalSymbolStorage.store, evictLoop, lookupA, eraseA,
      maxOfKeys, insertA, max_def])
    (-1) 10 ⟨-1, 0⟩
    (by norm_num [lookupA])
    (by norm_num [keysA])
    (by norm_num)
    (by norm_num)
    (by norm_num)

end Binance
